import Mathlib

/-!
Verification of the console I/O demonstration program (`source/main.cpp`).

The program is a linear sequence of C++ iostream operations.  We embed the
two streams shallowly:

* an input stream (`IStream`) is the not-yet-consumed character sequence
  plus the stream's fail state (`failbit`); every `std::cin` primitive used
  by the program (`get()`, `get(buf, n)`, `getline(buf, n)`, `operator>>`
  for `std::string` and for `int`) becomes a Lean function on `IStream`;
* an output stream (`OStream`) is the emitted character sequence plus the
  mutable formatting state (precision, width, fill, left-justification);
  `put`, `write`, `operator<<` for floats, and the manipulators become
  Lean functions on `OStream`.

Floating-point rendering is modelled exactly: the one float literal the
program writes, `9.99999f`, has the exact binary value `5242875/524288`,
represented with a gcd-free fraction type `Frac`, and the `defaultfloat`
(`%g`-style) renderer is implemented by digit extraction over `Int`.
-/

/-- Characters treated as whitespace by formatted extraction (`operator>>`). -/
def isWS (c : Char) : Bool := c == ' ' || c == '\t' || c == '\n' || c == '\r'

/-- Test used by `get(buf, n)` / `getline(buf, n)`: true for every character
other than the newline delimiter. -/
def notNL (c : Char) : Bool := !(c == '\n')

/-- Numeric value of a decimal digit character. -/
def digitVal (c : Char) : Nat := c.toNat - 48

/-- Value of a list of decimal digit characters, most significant first. -/
def natOfDigits (l : List Char) : Nat := l.foldl (fun a c => a * 10 + digitVal c) 0

/-- Character data of a string literal, the form all stream data takes here. -/
def strChars (s : String) : List Char := s.data

/-- An input stream: the characters not yet consumed, and the fail state
(`failbit`; once set, every later read is a no-op until cleared, and the
program never clears it). -/
structure IStream where
  buf : List Char
  fail : Bool
deriving DecidableEq

/-- A fresh input stream holding the given characters, fail state clear. -/
def IStream.ofList (l : List Char) : IStream := ⟨l, false⟩

/-- Model of `istream::get()` (no arguments): extract one character.  On a
failed stream it extracts nothing; at end of input it sets the fail state.
This is the "discard" the program uses after `>>` and after `get(buf, n)`:
it consumes exactly one character, whatever that character is. -/
def IStream.get1 (s : IStream) : Option Char × IStream :=
  if s.fail then (none, s)
  else
    match s.buf with
    | [] => (none, { s with fail := true })
    | c :: rest => (some c, { buf := rest, fail := false })

/-- Model of `istream::get(char* buf, streamsize n)`: store characters up to
the newline delimiter or up to `n - 1` characters, whichever comes first;
the delimiter is NOT consumed; if no character is stored, `failbit` is set.
Returns the stored data and the resulting stream. -/
def IStream.getN (s : IStream) (n : Nat) : List Char × IStream :=
  if s.fail || n == 0 then ([], s)
  else
    let data := ((s.buf.takeWhile notNL).take (n - 1))
    (data, { buf := s.buf.drop data.length, fail := data.isEmpty })

/-- Model of `istream::getline(char* buf, streamsize n)`: like `get(buf, n)`
but the newline delimiter is extracted and discarded (not stored); if the
line does not fit in `n - 1` characters, `failbit` is set and the delimiter
stays in the stream; extracting just the delimiter (empty line) counts as a
successful extraction. -/
def IStream.getline (s : IStream) (n : Nat) : List Char × IStream :=
  if s.fail || n == 0 then ([], s)
  else
    let line := s.buf.takeWhile notNL
    if line.length ≤ n - 1 then
      match s.buf.drop line.length with
      | [] => (line, { buf := [], fail := line.isEmpty })
      | _ :: r => (line, { buf := r, fail := false })
    else
      (line.take (n - 1), { buf := s.buf.drop (n - 1), fail := true })

/-- Contents of the caller's fixed buffer after `get(buf, n)`: the stored
data followed by the terminating null sentinel (stored whenever `n > 0` and
the read was attempted). -/
def bufAfterGetN (s : IStream) (n : Nat) : List Char :=
  if s.fail || n == 0 then [] else (s.getN n).1 ++ [Char.ofNat 0]

/-- Contents of the caller's fixed buffer after `getline(buf, n)`: the
stored data followed by the terminating null sentinel. -/
def bufAfterGetline (s : IStream) (n : Nat) : List Char :=
  if s.fail || n == 0 then [] else (s.getline n).1 ++ [Char.ofNat 0]

/-- Model of `std::cin >> (std::string)`: skip leading whitespace, then take
characters up to (not including) the next whitespace character.  If nothing
is extracted (end of input), `failbit` is set. -/
def extractToken (s : IStream) : List Char × IStream :=
  if s.fail then ([], s)
  else
    let r := s.buf.dropWhile isWS
    let tok := r.takeWhile (fun c => !isWS c)
    let rest := r.dropWhile (fun c => !isWS c)
    if tok.isEmpty then ([], { buf := rest, fail := true })
    else (tok, { buf := rest, fail := false })

/-- Model of `std::cin >> (int)` (C++11 `num_get`): skip leading whitespace,
read an optional sign and then decimal digits, stopping at the first
non-digit.  If there are no digits, the value is set to `0` and `failbit`
is set (the stream is not reset). -/
def extractInt (s : IStream) : Int × IStream :=
  if s.fail then (0, s)
  else
    let r1 := s.buf.dropWhile isWS
    let sgnRest : Int × List Char :=
      match r1 with
      | '-' :: t => (-1, t)
      | '+' :: t => (1, t)
      | _ => (1, r1)
    let ds := sgnRest.2.takeWhile Char.isDigit
    let r3 := sgnRest.2.dropWhile Char.isDigit
    if ds.isEmpty then (0, { buf := sgnRest.2, fail := true })
    else (sgnRest.1 * (natOfDigits ds : Int), { buf := r3, fail := false })

/-- Model of `atoi`: skip leading whitespace, optional sign, then the value
of the leading decimal digits; `0` when there are none. -/
def atoi (l : List Char) : Int :=
  let r1 := l.dropWhile isWS
  let sgnRest : Int × List Char :=
    match r1 with
    | '-' :: t => (-1, t)
    | '+' :: t => (1, t)
    | _ => (1, r1)
  sgnRest.1 * (natOfDigits (sgnRest.2.takeWhile Char.isDigit) : Int)

/-- An exact fraction with integer numerator and (positive, by construction)
integer denominator.  Unlike `ℚ` it performs no gcd normalisation, so all
operations reduce in the kernel. -/
structure Frac where
  num : Int
  den : Int
deriving DecidableEq

/-- Product of two fractions (no normalisation). -/
def Frac.mul (a b : Frac) : Frac := ⟨a.num * b.num, a.den * b.den⟩

/-- Value equality of fractions by cross multiplication. -/
def Frac.eq (a b : Frac) : Bool := a.num * b.den == b.num * a.den

/-- Whether the fraction is at least one (denominators are positive). -/
def Frac.geOne (a : Frac) : Bool := a.den ≤ a.num

/-- Floor of a fraction (denominators are positive). -/
def Frac.floor (a : Frac) : Int := a.num.fdiv a.den

/-- Round a fraction to the nearest integer, halves away from floor. -/
def Frac.roundNearest (a : Frac) : Int := (2 * a.num + a.den).fdiv (2 * a.den)

/-- Ten to an integer power, as a fraction. -/
def pow10 (k : Int) : Frac :=
  if 0 ≤ k then ⟨(10 : Int) ^ k.toNat, 1⟩ else ⟨1, (10 : Int) ^ (-k).toNat⟩

/-- Number of decimal digits of a natural number. -/
def digitCount (n : Nat) : Nat := (Nat.toDigits 10 n).length

/-- Smallest exponent `m`, starting from the given one, with `a * 10^m ≥ 1`
(fuel-bounded search, used for fractions below one). -/
def firstGE1 (a : Frac) : Nat → Nat → Nat
  | 0, m => m
  | fuel + 1, m =>
    if (a.mul (pow10 (m : Int))).geOne then m else firstGE1 a fuel (m + 1)

/-- Decimal exponent of a positive fraction: the unique `e` with
`10^e ≤ a < 10^(e+1)`. -/
def expOf (a : Frac) : Int :=
  if a.geOne then (digitCount a.floor.toNat : Int) - 1
  else -(firstGE1 a (digitCount a.den.toNat + 2) 1 : Int)

/-- Round a fraction to `p` significant decimal digits (the reference
operation the spec describes for stream precision). -/
def roundSig (p : Nat) (q : Frac) : Frac :=
  if q.num = 0 then ⟨0, 1⟩
  else
    let p := max p 1
    let s : Int := if q.num < 0 then -1 else 1
    let a : Frac := ⟨(q.num.natAbs : Int), q.den⟩
    let k : Int := (p : Int) - 1 - expOf a
    Frac.mul ⟨s * (a.mul (pow10 k)).roundNearest, 1⟩ (pow10 (-k))

/-- Drop trailing zero characters (used when `%g` trims a fraction part). -/
def stripZeros (l : List Char) : List Char :=
  (l.reverse.dropWhile (fun c => c == '0')).reverse

/-- Fixed-notation body for `%g`: place the decimal point after `e + 1`
leading digits of `ds` (or prepend `0.` and zeros for negative `e`) and trim
trailing zeros of the fraction part. -/
def fixedFormat (ds : List Char) (e : Int) : List Char :=
  if 0 ≤ e then
    let ip := ds.take (e.toNat + 1)
    let fp := stripZeros (ds.drop (e.toNat + 1))
    if fp.isEmpty then ip else ip ++ '.' :: fp
  else
    '0' :: '.' :: stripZeros (List.replicate ((-e).toNat - 1) '0' ++ ds)

/-- Scientific-notation body for `%g`: one leading digit, trimmed fraction
part, and a sign-and-two-digit exponent field. -/
def sciFormat (ds : List Char) (e : Int) : List Char :=
  let mant :=
    match ds with
    | [] => ['0']
    | d :: rest =>
      let fp := stripZeros rest
      if fp.isEmpty then [d] else d :: '.' :: fp
  let eabs := (if e < 0 then -e else e).toNat
  let eds := Nat.toDigits 10 eabs
  mant ++ 'e' :: (if e < 0 then '-' else '+') ::
    (if eds.length < 2 then '0' :: eds else eds)

/-- Model of C++ `defaultfloat` output (`%g`): round the value to
`max p 1` significant digits, then use fixed notation when the decimal
exponent `e` satisfies `-4 ≤ e < p` and scientific notation otherwise, in
both cases trimming trailing zeros of the fraction part. -/
def renderG (p : Nat) (q : Frac) : List Char :=
  if q.num = 0 then ['0']
  else
    let p := max p 1
    let a : Frac := ⟨(q.num.natAbs : Int), q.den⟩
    let e := expOf a
    let k : Int := (p : Int) - 1 - e
    let n := (a.mul (pow10 k)).roundNearest
    let ne : Int × Int :=
      if n = (10 : Int) ^ p then ((10 : Int) ^ (p - 1), e + 1) else (n, e)
    let ds := Nat.toDigits 10 ne.1.toNat
    let body :=
      if ne.2 < -4 || (p : Int) ≤ ne.2 then sciFormat ds ne.2
      else fixedFormat ds ne.2
    if q.num < 0 then '-' :: body else body

/-- Parse a decimal literal (optional sign, digits, optional fraction part,
optional exponent part) back into a fraction; `none` on any malformed
input.  Used to state that a rendered string denotes the rounded value. -/
def parseDec (l : List Char) : Option Frac :=
  let sgnRest : Int × List Char :=
    match l with
    | '-' :: t => (-1, t)
    | _ => (1, l)
  let ip := sgnRest.2.takeWhile Char.isDigit
  let l2 := sgnRest.2.dropWhile Char.isDigit
  if ip.isEmpty then none
  else
    let fpRest : List Char × List Char :=
      match l2 with
      | '.' :: t => (t.takeWhile Char.isDigit, t.dropWhile Char.isDigit)
      | _ => ([], l2)
    let exRest : Int × List Char :=
      match fpRest.2 with
      | 'e' :: '+' :: t =>
        ((natOfDigits (t.takeWhile Char.isDigit) : Int), t.dropWhile Char.isDigit)
      | 'e' :: '-' :: t =>
        (-(natOfDigits (t.takeWhile Char.isDigit) : Int), t.dropWhile Char.isDigit)
      | 'e' :: t =>
        ((natOfDigits (t.takeWhile Char.isDigit) : Int), t.dropWhile Char.isDigit)
      | _ => (0, fpRest.2)
    if exRest.2.isEmpty then
      some (Frac.mul ⟨sgnRest.1 * (natOfDigits (ip ++ fpRest.1) : Int), 1⟩
        (pow10 (exRest.1 - (fpRest.1.length : Int))))
    else none

/-- Result of `parseDec` with `0` as the fallback for malformed input. -/
def parseOr0 (l : List Char) : Frac := (parseDec l).getD ⟨0, 1⟩

/-- Exact binary value of the float literal `9.99999f` the program writes:
the nearest `float` to 9.99999 is `5242875 / 524288` = 9.999990463256836. -/
def val999 : Frac := ⟨5242875, 524288⟩

/-- An output stream: the characters emitted so far and the mutable
formatting state of `std::cout` (precision, field width, fill character,
left-justification flag). -/
structure OStream where
  precision : Nat
  width : Nat
  fill : Char
  leftJust : Bool
  out : List Char
deriving DecidableEq

/-- `std::cout` at program start: precision 6, no field width, space fill,
right justification, nothing emitted. -/
def ostreamInit : OStream := ⟨6, 0, ' ', false, []⟩

/-- Pad a rendered string to the current field width with the current fill
character: on the left under default right justification, on the right
under left justification; no padding when the string already reaches the
width. -/
def padTo (os : OStream) (s : List Char) : List Char :=
  if s.length < os.width then
    if os.leftJust then s ++ List.replicate (os.width - s.length) os.fill
    else List.replicate (os.width - s.length) os.fill ++ s
  else s

/-- A formatted insertion (`operator<<`): emit the rendered text padded to
the current width, then reset the width to 0; precision, fill and
justification are left unchanged. -/
def OStream.fmtWrite (os : OStream) (s : List Char) : OStream :=
  { os with out := os.out ++ padTo os s, width := 0 }

/-- `std::cout << (float)`: render with the stream's current precision in
`defaultfloat` style, then do a formatted insertion. -/
def OStream.writeFloat (os : OStream) (q : Frac) : OStream :=
  os.fmtWrite (renderG os.precision q)

/-- `std::endl`: emit a newline (unformatted, no width consumption). -/
def OStream.endl (os : OStream) : OStream := { os with out := os.out ++ ['\n'] }

/-- Narrowing of an `int` argument to a signed 8-bit `char`, wrapping into
`[-128, 127]` (what `put(157)` does on the usual signed-`char` platforms). -/
def scharOfInt (i : Int) : Int := (i + 128).emod 256 - 128

/-- The byte actually emitted for a (possibly negative) `char` value. -/
def byteOfSChar (c : Int) : Nat := (c.emod 256).toNat

/-- `ostream::put`: emit exactly one character, unformatted; the `int`
argument is first narrowed to `char`. -/
def OStream.put (os : OStream) (code : Int) : OStream :=
  { os with out := os.out ++ [Char.ofNat (byteOfSChar (scharOfInt code))] }

/-- `ostream::write(src, n)`: emit exactly the first `n` characters of the
source, unformatted, with no terminator and no padding (the program only
calls it with `n` at most the source length). -/
def OStream.write (os : OStream) (s : List Char) (n : Nat) : OStream :=
  { os with out := os.out ++ s.take n }

/-- `cout.width(w)` / `std::setw(w)`. -/
def OStream.setWidth (os : OStream) (w : Nat) : OStream := { os with width := w }

/-- `cout.fill(c)` / `std::setfill(c)`. -/
def OStream.setFill (os : OStream) (c : Char) : OStream := { os with fill := c }

/-- `cout.setf(std::ios::left)` / `std::setiosflags(std::ios::left)`. -/
def OStream.setLeft (os : OStream) : OStream := { os with leftJust := true }

/-- `cout.precision(p)`. -/
def OStream.setPrecision (os : OStream) (p : Nat) : OStream :=
  { os with precision := p }

/-!
Traces of the program's blocks.
-/

/-- State after the program's first float write (main.cpp line 62): default
formatting state. -/
def demo3s1 : OStream := (ostreamInit.writeFloat val999).endl

/-- State after the second write (lines 64-65): `precision(3)` first. -/
def demo3s2 : OStream := ((demo3s1.setPrecision 3).writeFloat val999).endl

/-- State after the third write (lines 68-69): `width(10)` first. -/
def demo3s3 : OStream := ((demo3s2.setWidth 10).writeFloat val999).endl

/-- State after the fourth write (lines 72-74): `width(10)`, `fill('-')`. -/
def demo3s4 : OStream :=
  (((demo3s3.setWidth 10).setFill '-').writeFloat val999).endl

/-- State after the fifth write (lines 77-82): `width(10)`, `fill('-')`,
`setf(std::ios::left)`. -/
def demo3s5 : OStream :=
  ((((demo3s4.setWidth 10).setFill '-').setLeft).writeFloat val999).endl

/-- State after the sixth write (line 87): the same mutations expressed as
inline manipulators `setw(10) << setfill('-') << setiosflags(ios::left)`. -/
def demo3s6 : OStream :=
  ((((demo3s5.setWidth 10).setFill '-').setLeft).writeFloat val999).endl

/-- Token-read step (main.cpp lines 101-108): `cin >> input; cin.get();`,
returning the echoed token and the resulting stream. -/
def tokenStep (s : IStream) : List Char × IStream :=
  ((extractToken s).1, ((extractToken s).2.get1).2)

/-- Typed-integer step (lines 143-153): `cin >> x; cin.get();`, returning
the echoed value and the resulting stream. -/
def intStep (s : IStream) : Int × IStream :=
  ((extractInt s).1, ((extractInt s).2.get1).2)

/-- Final step (lines 156-165): `cin.getline(input, 256); y = atoi(input);`
then echo `y * 2`; returns the echoed doubled value and the stream. -/
def atoiStep (s : IStream) : Int × IStream :=
  (2 * atoi (s.getline 256).1, (s.getline 256).2)

/-- The whole numeric-input block (lines 140-169): the typed-integer step
followed by the atoi step; returns both echoed values and the stream. -/
def numDemo (s : IStream) : (Int × Int) × IStream :=
  ((( intStep s).1, (atoiStep (intStep s).2).1), (atoiStep (intStep s).2).2)

/-!
General lemmas about the stream primitives.
-/

/-- Helper: `takeWhile` over a list that satisfies the test up to a first
failing element returns exactly the satisfying part. -/
theorem takeWhile_append_stop (p : Char → Bool) (l : List Char) (x : Char)
    (r : List Char) (h : ∀ c ∈ l, p c = true) (hx : p x = false) :
    (l ++ x :: r).takeWhile p = l := by
  induction l with
  | nil => simp [List.takeWhile_cons, hx]
  | cons a t ih =>
    have ha : p a = true := h a (List.mem_cons_self a t)
    simp [List.takeWhile_cons, ha,
      ih (fun c hc => h c (List.mem_cons_of_mem a hc))]

/-- Helper: `dropWhile` over a list that satisfies the test up to a first
failing element returns the remainder from that element on. -/
theorem dropWhile_append_stop (p : Char → Bool) (l : List Char) (x : Char)
    (r : List Char) (h : ∀ c ∈ l, p c = true) (hx : p x = false) :
    (l ++ x :: r).dropWhile p = x :: r := by
  induction l with
  | nil => simp [List.dropWhile_cons, hx]
  | cons a t ih =>
    have ha : p a = true := h a (List.mem_cons_self a t)
    simp [List.dropWhile_cons, ha,
      ih (fun c hc => h c (List.mem_cons_of_mem a hc))]

/-- Helper: `getline` on a fresh stream whose first line fits the buffer
reads exactly that line and consumes the newline. -/
theorem getline_spec (line rest : List Char) (n : Nat) (h0 : n ≠ 0)
    (h1 : line.length ≤ n - 1) (h2 : ∀ c ∈ line, c ≠ '\n') :
    IStream.getline ⟨line ++ '\n' :: rest, false⟩ n = (line, ⟨rest, false⟩) := by
  have htw : (line ++ '\n' :: rest).takeWhile notNL = line :=
    takeWhile_append_stop _ _ _ _ (fun c hc => by simp [notNL, h2 c hc])
      (by simp [notNL])
  simp [IStream.getline, h0, htw, h1, List.drop_left]

/-- Helper: `get(buf, n)` on a fresh stream whose first line fits the
buffer reads exactly that line and leaves the newline in the stream (and
fails exactly when the line is empty). -/
theorem getN_spec (line rest : List Char) (n : Nat) (h0 : n ≠ 0)
    (h1 : line.length ≤ n - 1) (h2 : ∀ c ∈ line, c ≠ '\n') :
    IStream.getN ⟨line ++ '\n' :: rest, false⟩ n =
      (line, ⟨'\n' :: rest, line.isEmpty⟩) := by
  have htw : (line ++ '\n' :: rest).takeWhile notNL = line :=
    takeWhile_append_stop _ _ _ _ (fun c hc => by simp [notNL, h2 c hc])
      (by simp [notNL])
  have htk : line.take (n - 1) = line := List.take_of_length_le h1
  simp [IStream.getN, h0, htw, htk, List.drop_left]

/-- Helper: `cin >> (std::string)` on a fresh stream starting with a
non-empty whitespace-free token followed by a newline extracts exactly that
token and leaves the newline in the stream. -/
theorem extractToken_spec (t rest : List Char) (ht : t ≠ [])
    (hws : ∀ c ∈ t, isWS c = false) :
    extractToken ⟨t ++ '\n' :: rest, false⟩ = (t, ⟨'\n' :: rest, false⟩) := by
  obtain ⟨a, t', rfl⟩ := List.exists_cons_of_ne_nil ht
  have ha : isWS a = false := hws a (List.mem_cons_self a t')
  have htw : ((a :: t') ++ '\n' :: rest).takeWhile (fun c => !isWS c) = a :: t' :=
    takeWhile_append_stop _ _ _ _ (fun c hc => by simp [hws c hc])
      (by simp [isWS])
  have hdw : ((a :: t') ++ '\n' :: rest).dropWhile (fun c => !isWS c) = '\n' :: rest :=
    dropWhile_append_stop _ _ _ _ (fun c hc => by simp [hws c hc])
      (by simp [isWS])
  have hdw0 : ((a :: t') ++ '\n' :: rest).dropWhile isWS = (a :: t') ++ '\n' :: rest := by
    rw [List.cons_append, List.dropWhile_cons, ha]
    simp
  unfold extractToken
  simp only [hdw0, htw, hdw, List.isEmpty_cons, Bool.false_eq_true, if_false]


/-!
Claim theorems.
-/

/-- C1 (counterexample): the claim fails on the input line `hello world`.
The echoed token is `hello`, but the single discard (`cin.get()`) consumes
only the one space after the token, so the stream still holds
`world\n42\n`: the cursor is NOT past the line terminator, and the next
buffer read sees `world` instead of fresh input. -/
theorem C1_cex_leftover_line_visible :
    tokenStep (IStream.ofList (strChars "hello world\n42\n")) =
      (strChars "hello", ⟨strChars "world\n42\n", false⟩) ∧
    (tokenStep (IStream.ofList (strChars "hello world\n42\n"))).2 ≠
      IStream.ofList (strChars "42\n") ∧
    ((tokenStep (IStream.ofList (strChars "hello world\n42\n"))).2.getN 64).1 =
      strChars "world" := by decide

/-- C1 (amended): after the read-until-whitespace extraction, the single
discard consumes exactly one character, so the cursor stands past the line
terminator exactly when the token was the whole line (the terminator
immediately follows the token); for a single-token line the next step sees
the rest of the input, while for `hello world` the echoed token is `hello`
and the rest of that line stays buffered. -/
theorem C1_token_then_single_discard :
    (∀ t rest : List Char, t ≠ [] → (∀ c ∈ t, isWS c = false) →
      tokenStep ⟨t ++ '\n' :: rest, false⟩ = (t, ⟨rest, false⟩)) ∧
    tokenStep (IStream.ofList (strChars "hello world\nnext")) =
      (strChars "hello", ⟨strChars "world\nnext", false⟩) := by
  constructor
  · intro t rest ht hws
    have h := extractToken_spec t rest ht hws
    simp [tokenStep, h, IStream.get1]
  · decide

/-- C1 (witness): the amended theorem applied to the single-token line
`hello` followed by a line `42`. -/
theorem C1_token_then_single_discard_witness :
    tokenStep ⟨strChars "hello" ++ '\n' :: strChars "42\n", false⟩ =
      (strChars "hello", ⟨strChars "42\n", false⟩) :=
  C1_token_then_single_discard.1 (strChars "hello") (strChars "42\n")
    (by decide) (by decide)

/-- C2 (counterexample): with input `abc` then `42`, the typed extraction
fails and the fail state crosses the step boundary: the next step's
`getline` extracts nothing although the line `42` is buffered (the stream
is returned unchanged and still failed), and the step echoes `0`, whereas
the same step performed normally on the waiting line `42` would echo `84`. -/
theorem C2_cex_failure_crosses_steps :
    numDemo (IStream.ofList (strChars "abc\n42\n")) =
      ((0, 0), ⟨strChars "abc\n42\n", true⟩) ∧
    (intStep (IStream.ofList (strChars "abc\n42\n"))).2.fail = true ∧
    atoiStep (IStream.ofList (strChars "42\n")) = (84, ⟨[], false⟩) := by decide

/-- C2 (amended): control flow always proceeds to the next step and every
step still echoes a value, but a totally failed typed extraction is not
absorbed within its step: the stream's fail state persists across the step
boundary and every read on the failed stream extracts nothing (the next
step echoes `0` from an untouched stream); when no failure occurs the
subsequent steps do read and echo normally. -/
theorem C2_failed_state_persists :
    (∀ s : IStream, s.fail = true →
      s.get1 = (none, s) ∧ s.getline 256 = ([], s) ∧
      extractInt s = (0, s) ∧ atoiStep s = (0, s)) ∧
    numDemo (IStream.ofList (strChars " 77\n42x\n")) = ((77, 84), ⟨[], false⟩) ∧
    numDemo (IStream.ofList (strChars "abc\n42\n")) =
      ((0, 0), ⟨strChars "abc\n42\n", true⟩) := by
  refine ⟨?_, by decide, by decide⟩
  intro s hs
  refine ⟨?_, ?_, ?_, ?_⟩ <;>
    simp [IStream.get1, IStream.getline, extractInt, atoiStep, atoi,
      natOfDigits, hs]

/-- C2 (witness): the amended theorem applied to a concrete failed stream
that still holds the unread text `42`. -/
theorem C2_failed_state_persists_witness :
    IStream.get1 ⟨strChars "42\n", true⟩ = (none, ⟨strChars "42\n", true⟩) ∧
    IStream.getline ⟨strChars "42\n", true⟩ 256 = ([], ⟨strChars "42\n", true⟩) ∧
    extractInt ⟨strChars "42\n", true⟩ = (0, ⟨strChars "42\n", true⟩) ∧
    atoiStep ⟨strChars "42\n", true⟩ = (0, ⟨strChars "42\n", true⟩) :=
  C2_failed_state_persists.1 ⟨strChars "42\n", true⟩ rfl

/-- C3: a field width greater than the rendered length pads that one write
to exactly the width with the current fill character (on the left under
default right justification, on the right under left justification); a
formatted write resets the width to zero while precision, fill and the
left-justification flag persist; consequently the sixth, manipulator-based
write of the program emits exactly what the fifth write emitted,
`10--------` and a newline. -/
theorem C3_width_fill_justify :
    (∀ (os : OStream) (s : List Char), s.length < os.width →
      (padTo os s).length = os.width ∧
      (os.leftJust = false →
        padTo os s = List.replicate (os.width - s.length) os.fill ++ s) ∧
      (os.leftJust = true →
        padTo os s = s ++ List.replicate (os.width - s.length) os.fill)) ∧
    (∀ (os : OStream) (s : List Char),
      (os.fmtWrite s).width = 0 ∧ (os.fmtWrite s).precision = os.precision ∧
      (os.fmtWrite s).fill = os.fill ∧ (os.fmtWrite s).leftJust = os.leftJust) ∧
    demo3s6.out.drop demo3s5.out.length = demo3s5.out.drop demo3s4.out.length ∧
    demo3s6.out.drop demo3s5.out.length = strChars "10--------\n" := by
  refine ⟨?_, ?_, by decide, by decide⟩
  · intro os s h
    unfold padTo
    rw [if_pos h]
    refine ⟨?_, fun hl => by simp [hl], fun hl => by simp [hl]⟩
    cases hl : os.leftJust <;> simp [hl] <;> omega
  · intro os s
    exact ⟨rfl, rfl, rfl, rfl⟩

/-- C3 (witness): the padding clause applied to the rendered text `10` in a
state with width 10, fill `-`, right justification. -/
theorem C3_width_fill_justify_witness :
    (padTo ⟨3, 10, '-', false, []⟩ (strChars "10")).length = 10 :=
  (C3_width_fill_justify.1 ⟨3, 10, '-', false, []⟩ (strChars "10")
    (by decide)).1

/-- C4: writing the float after `precision(p)` emits the textual
representation of the value rounded to `p` significant digits: for every
precision `1 ≤ p < 10`, parsing the rendered text of `9.99999f` back gives
exactly `roundSig p` of its value; in particular at precision 3 the output
is `10`, the 3-significant-digit rounding. -/
theorem C4_precision_rounds :
    (∀ p : Nat, p < 10 → 1 ≤ p →
      Frac.eq (parseOr0 (renderG p val999)) (roundSig p val999) = true) ∧
    renderG 3 val999 = strChars "10" ∧
    Frac.eq (roundSig 3 val999) ⟨10, 1⟩ = true ∧
    (ostreamInit.setPrecision 3).writeFloat val999 =
      ⟨3, 0, ' ', false, strChars "10"⟩ := by
  refine ⟨by decide, by decide, by decide, by decide⟩

/-- C4 (witness): the rounding clause applied at precision 3. -/
theorem C4_precision_rounds_witness :
    Frac.eq (parseOr0 (renderG 3 val999)) (roundSig 3 val999) = true :=
  C4_precision_rounds.1 3 (by decide) (by decide)

/-- C5: a bounded raw write with limit `n` not exceeding the source length
emits exactly the first `n` source characters and nothing else; in
particular `write("words cannot describe", 4)` emits exactly `word`. -/
theorem C5_bounded_write :
    (∀ (os : OStream) (s : List Char) (n : Nat), n ≤ s.length →
      (os.write s n).out = os.out ++ s.take n ∧ (s.take n).length = n) ∧
    (ostreamInit.write (strChars "words cannot describe") 4).out =
      strChars "word" := by
  refine ⟨?_, by decide⟩
  intro os s n h
  refine ⟨rfl, ?_⟩
  simp [List.length_take]
  omega

/-- C5 (witness): the general clause applied to the program's call. -/
theorem C5_bounded_write_witness :
    (ostreamInit.write (strChars "words cannot describe") 4).out =
      ostreamInit.out ++ (strChars "words cannot describe").take 4 ∧
    ((strChars "words cannot describe").take 4).length = 4 :=
  C5_bounded_write.1 ostreamInit (strChars "words cannot describe") 4
    (by decide)

/-- C6: for every input stream and declared capacity, a bounded buffer read
(`get(buf, n)` or `getline(buf, n)`) stores at most `n - 1` data characters,
and the buffer contents including the terminating null sentinel never
exceed `n` characters, so no write lands at or past index `n`. -/
theorem C6_buffer_capacity : ∀ (s : IStream) (n : Nat),
    (s.getN n).1.length ≤ n - 1 ∧ (bufAfterGetN s n).length ≤ n ∧
    (s.getline n).1.length ≤ n - 1 ∧ (bufAfterGetline s n).length ≤ n := by
  intro s n
  have hg : (s.getN n).1.length ≤ n - 1 := by
    unfold IStream.getN
    split
    · simp
    · exact List.length_take_le (n - 1) (s.buf.takeWhile notNL)
  have hl : (s.getline n).1.length ≤ n - 1 := by
    unfold IStream.getline
    split
    · simp
    · dsimp only
      split
      · rename_i hlen
        split <;> exact hlen
      · exact List.length_take_le (n - 1) (s.buf.takeWhile notNL)
  refine ⟨hg, ?_, hl, ?_⟩
  · unfold bufAfterGetN
    split
    · simp
    · rename_i h
      simp only [Bool.or_eq_true, not_or, beq_iff_eq] at h
      simp only [List.length_append, List.length_cons, List.length_nil]
      omega
  · unfold bufAfterGetline
    split
    · simp
    · rename_i h
      simp only [Bool.or_eq_true, not_or, beq_iff_eq] at h
      simp only [List.length_append, List.length_cons, List.length_nil]
      omega

/-- C7: with the text `500BC` at the cursor, typed integer extraction
stores 500, stops at the first non-numeric character, leaves `BC` (and
anything after it) unconsumed, and does not fail. -/
theorem C7_stops_at_nondigit :
    extractInt (IStream.ofList (strChars "500BC")) =
      (500, ⟨strChars "BC", false⟩) ∧
    extractInt (IStream.ofList (strChars "500BC\n")) =
      (500, ⟨strChars "BC\n", false⟩) ∧
    (extractToken (IStream.ofList (strChars "BC\n"))).1 = strChars "BC" := by
  decide

/-- C8: the final step reads one full line into the 256-byte buffer,
converts it with leading-digits-to-integer semantics (`abc` gives 0, `42x`
gives 42) and echoes exactly twice the converted value. -/
theorem C8_getline_atoi_double :
    atoi (strChars "abc") = 0 ∧ atoi (strChars "42x") = 42 ∧
    (∀ line rest : List Char, line.length ≤ 255 → (∀ c ∈ line, c ≠ '\n') →
      atoiStep ⟨line ++ '\n' :: rest, false⟩ = (2 * atoi line, ⟨rest, false⟩)) ∧
    atoiStep (IStream.ofList (strChars "21\n")) = (42, ⟨[], false⟩) := by
  refine ⟨by decide, by decide, ?_, by decide⟩
  intro line rest h1 h2
  have hgl := getline_spec line rest 256 (by omega) (by omega) h2
  simp [atoiStep, hgl]

/-- C8 (witness): the general clause applied to the line `42x`. -/
theorem C8_getline_atoi_double_witness :
    atoiStep ⟨strChars "42x" ++ '\n' :: [], false⟩ =
      (2 * atoi (strChars "42x"), ⟨[], false⟩) :=
  C8_getline_atoi_double.2.2.1 (strChars "42x") [] (by decide) (by decide)

/-- C9: for every input line shorter than the 64-byte buffer bound,
`get(buf, 64)` stores the line and leaves the newline unconsumed in the
stream, while `getline(buf, 64)` stores the same line and consumes the
newline, so the two modes store identical buffer contents and only differ
in the delimiter's fate. -/
theorem C9_get_vs_getline :
    ∀ line rest : List Char, line.length ≤ 63 → (∀ c ∈ line, c ≠ '\n') →
      IStream.getN ⟨line ++ '\n' :: rest, false⟩ 64 =
        (line, ⟨'\n' :: rest, line.isEmpty⟩) ∧
      IStream.getline ⟨line ++ '\n' :: rest, false⟩ 64 = (line, ⟨rest, false⟩) ∧
      (IStream.getN ⟨line ++ '\n' :: rest, false⟩ 64).1 =
        (IStream.getline ⟨line ++ '\n' :: rest, false⟩ 64).1 := by
  intro line rest h1 h2
  have hg := getN_spec line rest 64 (by omega) (by omega) h2
  have hl := getline_spec line rest 64 (by omega) (by omega) h2
  exact ⟨hg, hl, by rw [hg, hl]⟩

/-- C9 (witness): the theorem applied to the line `hi` followed by `xx`. -/
theorem C9_get_vs_getline_witness :
    IStream.getN ⟨strChars "hi" ++ '\n' :: strChars "xx", false⟩ 64 =
      (strChars "hi", ⟨'\n' :: strChars "xx", (strChars "hi").isEmpty⟩) ∧
    IStream.getline ⟨strChars "hi" ++ '\n' :: strChars "xx", false⟩ 64 =
      (strChars "hi", ⟨strChars "xx", false⟩) ∧
    (IStream.getN ⟨strChars "hi" ++ '\n' :: strChars "xx", false⟩ 64).1 =
      (IStream.getline ⟨strChars "hi" ++ '\n' :: strChars "xx", false⟩ 64).1 :=
  C9_get_vs_getline (strChars "hi") (strChars "xx") (by decide) (by decide)

/-- C10: `put(157)` narrows the `int` literal to a signed 8-bit character
value, wrapping 157 to -99, whose emitted byte is still `157 = 157 % 2^8`;
exactly one character is emitted. -/
theorem C10_put_narrowing :
    scharOfInt 157 = -99 ∧
    byteOfSChar (scharOfInt 157) = 157 % 2 ^ 8 ∧
    (∀ os : OStream, (os.put 157).out = os.out ++ [Char.ofNat 157] ∧
      (os.put 157).out.length = os.out.length + 1) := by
  refine ⟨by decide, by decide, ?_⟩
  intro os
  have hb : Char.ofNat (byteOfSChar (scharOfInt 157)) = Char.ofNat 157 := by
    decide
  exact ⟨by simp [OStream.put, hb], by simp [OStream.put]⟩
